import Mathlib

/-!
Verification of the linux-keyutils library against its specification.

The Rust sources are embedded shallowly: pure functions become Lean
functions on Nat / List Char; machine integers (u8, u32, i32) become Nat
or Int with explicit bounds and wraparound where the source can overflow;
fallible operations return Except; the kernel syscall boundary is
modelled by passing in the result each syscall would produce, and the
sequence of kernel calls actually issued is returned as an explicit
trace so that claims about which calls happen (and in which order) can
be stated.
-/

namespace LinuxKeyutils

/-! ## Permission model (src/permissions.rs)

The source stores a u32 mask in a tuple struct.  Each tier setter does
a masked byte clear followed by an addition:

  self.0 &= !(0xFF << shift);
  self.0 += (perm.bits() as u32) << shift;

The u32 complements are written as their literal values below
(!(0xFF << 24) = 0x00FFFFFF and so on), and the u32 addition is
modelled with wraparound modulo 2^32.  `Permission` is the bitflags
newtype over u8; the u8 range (bits < 256) is carried as a hypothesis
in the theorems, matching the Rust type invariant. -/

/-- The bitflags newtype over u8 from src/permissions.rs. -/
structure Permission where
  bits : Nat
deriving DecidableEq

/-- Allows viewing a key's attributes. -/
def Permission.VIEW : Permission := ⟨0x1⟩

/-- Allows reading a key's payload / viewing a keyring. -/
def Permission.READ : Permission := ⟨0x2⟩

/-- Allows writing/updating a key's payload. -/
def Permission.WRITE : Permission := ⟨0x4⟩

/-- Allows finding a key in search / searching a keyring. -/
def Permission.SEARCH : Permission := ⟨0x8⟩

/-- Allows creating a link to a key/keyring. -/
def Permission.LINK : Permission := ⟨0x10⟩

/-- Allows setting attributes for a key. -/
def Permission.SETATTR : Permission := ⟨0x20⟩

/-- Allows all actions. -/
def Permission.ALL : Permission := ⟨0x3f⟩

/-- The u32 permission mask wrapped by KeyPermissions in src/permissions.rs. -/
structure KeyPermissions where
  val : Nat
deriving DecidableEq

/-- KeyPermissions::new, an all-zero mask. -/
def KeyPermissions.new : KeyPermissions := ⟨0⟩

/-- KeyPermissions::from_u32. -/
def KeyPermissions.from_u32 (raw : Nat) : KeyPermissions := ⟨raw⟩

/-- KeyPermissions::bits, the raw u32 mask. -/
def KeyPermissions.bits (p : KeyPermissions) : Nat := p.val

/-- KeyPermissions::set_posessor_perms: clear byte 3 (mask !(0xFF << 24)
= 0x00FFFFFF), then add the capability bits shifted into byte 3. -/
def KeyPermissions.set_posessor_perms (s : KeyPermissions) (perm : Permission) :
    KeyPermissions :=
  ⟨((s.val &&& 0x00FFFFFF) + (perm.bits <<< 24)) % 2 ^ 32⟩

/-- KeyPermissions::set_user_perms: clear byte 2 (mask !(0xFF << 16)
= 0xFF00FFFF), then add the capability bits shifted into byte 2. -/
def KeyPermissions.set_user_perms (s : KeyPermissions) (perm : Permission) :
    KeyPermissions :=
  ⟨((s.val &&& 0xFF00FFFF) + (perm.bits <<< 16)) % 2 ^ 32⟩

/-- KeyPermissions::set_group_perms: clear byte 1 (mask !(0xFF << 8)
= 0xFFFF00FF), then add the capability bits shifted into byte 1. -/
def KeyPermissions.set_group_perms (s : KeyPermissions) (perm : Permission) :
    KeyPermissions :=
  ⟨((s.val &&& 0xFFFF00FF) + (perm.bits <<< 8)) % 2 ^ 32⟩

/-- KeyPermissions::set_world_perms: clear byte 0 (mask !0xFF
= 0xFFFFFF00), then add the capability bits. -/
def KeyPermissions.set_world_perms (s : KeyPermissions) (perm : Permission) :
    KeyPermissions :=
  ⟨((s.val &&& 0xFFFFFF00) + perm.bits) % 2 ^ 32⟩

/-- The 8-bit byte of a mask at byte index i. -/
def byteAt (x i : Nat) : Nat := (x >>> (8 * i)) &&& 0xFF

/-! ## Error model (src/errors.rs) -/

/-- The flat error taxonomy from src/errors.rs.  Unknown carries the raw
OS error number (a C int, modelled as Int). -/
inductive KeyError where
  | AccessDenied
  | QuotaExceeded
  | BadAddress
  | InvalidArguments
  | KeyExpired
  | KeyRevoked
  | KeyRejected
  | KeyringDoesNotExist
  | KeyDoesNotExist
  | OutOfMemory
  | InvalidDescription
  | InvalidIdentifier
  | OperationNotSupported
  | WriteError
  | Unknown : Int → KeyError
deriving DecidableEq

/-- KeyError::from_errno (src/errors.rs).  The matched libc constants
are written as their Linux x86-64 values: EACCES = 13, EDQUOT = 122,
EFAULT = 14, EINVAL = 22, EKEYEXPIRED = 127, EKEYREVOKED = 128,
EKEYREJECTED = 129, ENOMEM = 12, ENOKEY = 126, ENOTSUP = 95. -/
def KeyError.from_errno (e : Int) : KeyError :=
  if e = 13 then .AccessDenied
  else if e = 122 then .QuotaExceeded
  else if e = 14 then .BadAddress
  else if e = 22 then .InvalidArguments
  else if e = 127 then .KeyExpired
  else if e = 128 then .KeyRevoked
  else if e = 129 then .KeyRejected
  else if e = 12 then .OutOfMemory
  else if e = 126 then .KeyDoesNotExist
  else if e = 95 then .OperationNotSupported
  else .Unknown e

/-! ## Identifier and type model (src/ffi/types.rs) -/

/-- Primary kernel identifier for a key or keyring, an i32. -/
structure KeySerialId where
  raw : Int
deriving DecidableEq

/-- Pre-defined key types the kernel understands. -/
inductive KeyType where
  | KeyRing
  | User
  | Logon
  | BigKey
deriving DecidableEq

/-- Special identifiers for default keyrings. -/
inductive KeyRingIdentifier where
  | Thread
  | Process
  | Session
  | User
  | UserSession
  | Group
  | ReqKeyAuthKey
deriving DecidableEq

/-- The fixed ASCII tag for each key type, from the
From KeyType for CStr impl in src/ffi/types.rs (null terminator
stripped, as the parser never sees it). -/
def KeyType.tag : KeyType → List Char
  | .KeyRing => "keyring".toList
  | .User => "user".toList
  | .Logon => "logon".toList
  | .BigKey => "big_key".toList

/-- The TryFrom &str for KeyType impl in src/ffi/types.rs: the inverse
tag table, failing with InvalidIdentifier on an unrecognized tag. -/
def KeyType.try_from (s : List Char) : Except KeyError KeyType :=
  if s = "keyring".toList then .ok .KeyRing
  else if s = "user".toList then .ok .User
  else if s = "logon".toList then .ok .Logon
  else if s = "big_key".toList then .ok .BigKey
  else .error .InvalidIdentifier

/-! ## Metadata protocol (src/metadata.rs)

Strings are modelled as List Char.  Rust str::split(';') yields the
(possibly empty) substrings between separators and always yields at
least one element; splitSemi below has exactly that semantics.
Metadata::from_str draws the first five elements of that iterator in
order, so it reads list positions 0 through 4 and ignores any later
elements. -/

/-- Rust str::split with separator ';' on a char list. -/
def splitSemi : List Char → List (List Char)
  | [] => [[]]
  | c :: rest =>
    if c = ';' then [] :: splitSemi rest
    else
      match splitSemi rest with
      | f :: fs => (c :: f) :: fs
      | [] => [[c]]

/-- Rust char::to_digit(10): the value of a decimal digit. -/
def decDigitVal (c : Char) : Option Nat :=
  if 48 ≤ c.toNat ∧ c.toNat ≤ 57 then some (c.toNat - 48) else none

/-- Rust char::to_digit(16): the value of a hexadecimal digit,
accepting 0-9, a-f and A-F. -/
def hexDigitVal (c : Char) : Option Nat :=
  if 48 ≤ c.toNat ∧ c.toNat ≤ 57 then some (c.toNat - 48)
  else if 97 ≤ c.toNat ∧ c.toNat ≤ 102 then some (c.toNat - 87)
  else if 65 ≤ c.toNat ∧ c.toNat ≤ 70 then some (c.toNat - 55)
  else none

/-- The digit-accumulation loop of Rust's integer from_str_radix for
u32: each step multiplies by the radix and adds the digit value, with
u32 overflow reported as a failure (checked_mul / checked_add). -/
def parseU32Core (digit : Char → Option Nat) (radix : Nat) :
    List Char → Nat → Option Nat
  | [], acc => some acc
  | c :: rest, acc =>
    match digit c with
    | none => none
    | some d =>
      if acc * radix + d < 2 ^ 32 then parseU32Core digit radix rest (acc * radix + d)
      else none

/-- The sign handling of Rust's integer from_str for unsigned types: a
leading plus sign is dropped; anything else (including a minus sign) is
left for the digit loop, which rejects it as a non-digit, matching the
error Rust reports for a minus sign on an unsigned type. -/
def stripPlus (s : List Char) : List Char :=
  match s with
  | [] => []
  | c :: rest => if c = '+' then rest else c :: rest

/-- Rust str::parse::<u32> (u32's FromStr): an optional leading plus
sign, then one or more decimal digits, with overflow failing. -/
def parseU32Dec (s : List Char) : Option Nat :=
  let digits := stripPlus s
  if digits.isEmpty then none
  else parseU32Core decDigitVal 10 digits 0

/-- Rust u32::from_str_radix(s, 16): an optional leading plus sign,
then one or more hexadecimal digits, with overflow failing. -/
def parseU32Hex (s : List Char) : Option Nat :=
  let digits := stripPlus s
  if digits.isEmpty then none
  else parseU32Core hexDigitVal 16 digits 0

/-- The structured record parsed from the kernel descriptor string
(src/metadata.rs). -/
structure Metadata where
  ktype : KeyType
  uid : Nat
  gid : Nat
  perm : KeyPermissions
  description : List Char
deriving DecidableEq

/-- Metadata's FromStr impl (src/metadata.rs): split on ';', then take
the iterator's first five elements as type tag, decimal uid, decimal
gid, hexadecimal permission mask, and description; every failure is
KeyError::InvalidDescription (the KeyType try_from error is discarded
by .ok() and replaced via .ok_or). -/
def Metadata.from_str (s : List Char) : Except KeyError Metadata :=
  let fields := splitSemi s
  match (fields.get? 0).bind (fun v => (KeyType.try_from v).toOption) with
  | none => .error .InvalidDescription
  | some ktype =>
    match (fields.get? 1).bind parseU32Dec with
    | none => .error .InvalidDescription
    | some uid =>
      match (fields.get? 2).bind parseU32Dec with
      | none => .error .InvalidDescription
      | some gid =>
        match (fields.get? 3).bind parseU32Hex with
        | none => .error .InvalidDescription
        | some perms =>
          match fields.get? 4 with
          | none => .error .InvalidDescription
          | some description =>
            .ok ⟨ktype, uid, gid, KeyPermissions.from_u32 perms, description⟩

/-- The numeric value of a decimal digit string (most significant digit
first); the reference meaning of a decimal numeral used to state
round-trip properties. -/
def decValue (s : List Char) : Nat :=
  s.foldl (fun acc c => acc * 10 + ((decDigitVal c).getD 0)) 0

/-- The numeric value of a hexadecimal digit string (most significant
digit first). -/
def hexValue (s : List Char) : Nat :=
  s.foldl (fun acc c => acc * 16 + ((hexDigitVal c).getD 0)) 0

/-! ## Keyring resolution (src/keyring.rs)

KeyRing::from_special_id issues the KEYCTL_GET_KEYRING_ID syscall via
the keyctl! macro; the macro returns Err(KeyError::from_errno()) when
the raw result is negative.  The syscall outcome is passed in
explicitly: either the errno it set, or the returned c_long, which is
then converted to an i32 KeySerialId (TryFrom i64, failing with
InvalidIdentifier when out of i32 range). -/

/-- A keyring handle (src/keyring.rs). -/
structure KeyRing where
  id : KeySerialId
deriving DecidableEq

/-- KeyRing::from_special_id, with the kernel's response to the
KEYCTL_GET_KEYRING_ID call supplied as sysRes.  The id and create
arguments are forwarded to the kernel and do not otherwise affect the
control flow. -/
def KeyRing.from_special_id (_id : KeyRingIdentifier) (_create : Bool)
    (sysRes : Except Int Int) : Except KeyError KeyRing :=
  match sysRes with
  | .error errno => .error (KeyError.from_errno errno)
  | .ok v =>
    if -(2 ^ 31) ≤ v ∧ v < 2 ^ 31 then .ok ⟨⟨v⟩⟩
    else .error .InvalidIdentifier

/-! ## Credential store adapter (src/keystore.rs)

The adapter composes keyring operations; each kernel-facing call is
recorded in a trace (KernelOp) and its outcome is supplied by the
environment in program order, so the theorems can speak both about the
returned value and about which kernel calls were issued. -/

/-- The error type of the external keyring crate, restricted to the
variants this adapter constructs (ErrorCode::NoEntry,
ErrorCode::Invalid(String, String), and ErrorCode::PlatformFailure
wrapping the boxed KeyError). -/
inductive ErrorCode where
  | NoEntry
  | Invalid : String → String → ErrorCode
  | PlatformFailure : KeyError → ErrorCode
deriving DecidableEq

/-- decode_error (src/keystore.rs): collapse the four kinds the kernel
returns for a vanished key into NoEntry, translate the two invalid-input
kinds, and wrap everything else as a platform failure. -/
def decode_error (err : KeyError) : ErrorCode :=
  match err with
  | .KeyDoesNotExist | .AccessDenied | .KeyRevoked | .KeyExpired => .NoEntry
  | .InvalidDescription => .Invalid "description" "rejected by platform"
  | .InvalidArguments => .Invalid "password" "rejected by platform"
  | other => .PlatformFailure other

/-- A kernel-facing call issued by the adapter. -/
inductive KernelOp where
  | addKey : KeySerialId → String → List Nat → KernelOp
  | linkKey : KeySerialId → KeySerialId → KernelOp
  | search : KeySerialId → String → KernelOp
  | readKey : KeySerialId → KernelOp
  | invalidate : KeySerialId → KernelOp
  | unlinkKey : KeySerialId → KeySerialId → KernelOp
deriving DecidableEq

/-- The keyutils credential (src/keystore.rs): the session keyring, the
optional persistent keyring, and the entry description. -/
structure KeyutilsCredential where
  session : KeySerialId
  persistent : Option KeySerialId
  description : String
deriving DecidableEq

/-- Decidable equality for Except results, used to evaluate the
adapter model on concrete inputs. -/
instance {ε α : Type} [DecidableEq ε] [DecidableEq α] : DecidableEq (Except ε α) :=
  fun x y =>
    match x, y with
    | .ok a, .ok b =>
      if h : a = b then isTrue (by rw [h]) else isFalse (by simp [h])
    | .error a, .error b =>
      if h : a = b then isTrue (by rw [h]) else isFalse (by simp [h])
    | .ok _, .error _ => isFalse (by simp)
    | .error _, .ok _ => isFalse (by simp)

/-- Kernel responses consumed by set_secret, in program order. -/
structure SetEnv where
  addRes : Except KeyError KeySerialId
  linkRes : Except KeyError Unit
deriving DecidableEq

/-- Kernel responses consumed by get_secret, in program order. -/
structure GetEnv where
  searchRes : Except KeyError KeySerialId
  linkSessionRes : Except KeyError Unit
  linkPersistRes : Except KeyError Unit
  readRes : Except KeyError (List Nat)
deriving DecidableEq

/-- KeyutilsCredential::set_secret: reject an empty secret before any
kernel call; otherwise add_key to the session keyring, then, if a
persistent keyring is configured, link the new key into it; each
failure is decoded and propagated immediately.  Returns the result
paired with the trace of kernel calls issued. -/
def KeyutilsCredential.set_secret (c : KeyutilsCredential) (secret : List Nat)
    (env : SetEnv) : Except ErrorCode Unit × List KernelOp :=
  if secret.isEmpty then
    (.error (.Invalid "secret" "cannot be empty"), [])
  else
    match env.addRes with
    | .error e => (.error (decode_error e), [.addKey c.session c.description secret])
    | .ok key =>
      match c.persistent with
      | none => (.ok (), [.addKey c.session c.description secret])
      | some ring =>
        match env.linkRes with
        | .error e =>
          (.error (decode_error e),
           [.addKey c.session c.description secret, .linkKey ring key])
        | .ok _ =>
          (.ok (),
           [.addKey c.session c.description secret, .linkKey ring key])

/-- KeyutilsCredential::get_secret: search the session keyring for the
description, re-link the found key into the session keyring, then (if
configured) into the persistent keyring, then read the payload; each
failure is decoded and propagated immediately by the ? operator.
Returns the result paired with the trace of kernel calls issued. -/
def KeyutilsCredential.get_secret (c : KeyutilsCredential) (env : GetEnv) :
    Except ErrorCode (List Nat) × List KernelOp :=
  match env.searchRes with
  | .error e => (.error (decode_error e), [.search c.session c.description])
  | .ok key =>
    match env.linkSessionRes with
    | .error e =>
      (.error (decode_error e),
       [.search c.session c.description, .linkKey c.session key])
    | .ok _ =>
      match c.persistent with
      | some ring =>
        match env.linkPersistRes with
        | .error e =>
          (.error (decode_error e),
           [.search c.session c.description, .linkKey c.session key,
            .linkKey ring key])
        | .ok _ =>
          match env.readRes with
          | .error e =>
            (.error (decode_error e),
             [.search c.session c.description, .linkKey c.session key,
              .linkKey ring key, .readKey key])
          | .ok buffer =>
            (.ok buffer,
             [.search c.session c.description, .linkKey c.session key,
              .linkKey ring key, .readKey key])
      | none =>
        match env.readRes with
        | .error e =>
          (.error (decode_error e),
           [.search c.session c.description, .linkKey c.session key,
            .readKey key])
        | .ok buffer =>
          (.ok buffer,
           [.search c.session c.description, .linkKey c.session key,
            .readKey key])

/-! ## Bit-level helper lemmas for the permission mask -/

/-- Bits of a sum of two bit-disjoint parts: below the split point k the
bits come from the low part, above it from the high part. -/
theorem testBit_split (a b k i : Nat) (h : a < 2 ^ k) :
    Nat.testBit (a + b * 2 ^ k) i =
      if i < k then Nat.testBit a i else Nat.testBit b (i - k) := by
  rcases Nat.lt_or_ge i k with hik | hik
  · rw [if_pos hik]
    have hmod : (a + b * 2 ^ k) % 2 ^ k = a := by
      rw [Nat.add_mul_mod_self_right, Nat.mod_eq_of_lt h]
    have ht := Nat.testBit_mod_two_pow (a + b * 2 ^ k) k i
    rw [hmod] at ht
    simp only [hik, decide_True, Bool.true_and] at ht
    exact ht.symm
  · rw [if_neg (Nat.not_lt.mpr hik)]
    have hdiv : (a + b * 2 ^ k) >>> k = b := by
      rw [Nat.shiftRight_eq_div_pow,
        Nat.add_mul_div_right _ _ (Nat.two_pow_pos k), Nat.div_eq_of_lt h,
        Nat.zero_add]
    have ht := Nat.testBit_shiftRight (a + b * 2 ^ k) (i := k) (j := i - k)
    rw [hdiv, Nat.add_sub_cancel' hik] at ht
    exact ht.symm

/-- Clearing the possessor byte: AND with 0x00FFFFFF keeps the low 24
bits. -/
theorem and_mask_posessor (s : Nat) : s &&& 0x00FFFFFF = s % 2 ^ 24 := by
  have h : (0x00FFFFFF : Nat) = 2 ^ 24 - 1 := by norm_num
  rw [h, Nat.and_pow_two_sub_one_eq_mod]

/-- Clearing the user byte: AND with 0xFF00FFFF keeps the low 16 bits
and byte 3. -/
theorem and_mask_user (s : Nat) :
    s &&& 0xFF00FFFF = s % 2 ^ 16 + s / 2 ^ 24 % 2 ^ 8 * 2 ^ 24 := by
  have h : (0xFF00FFFF : Nat) = (2 ^ 16 - 1) + (2 ^ 8 - 1) * 2 ^ 24 := by norm_num
  apply Nat.eq_of_testBit_eq
  intro i
  rw [h, Nat.testBit_and,
    testBit_split (2 ^ 16 - 1) (2 ^ 8 - 1) 24 i (by norm_num),
    testBit_split (s % 2 ^ 16) (s / 2 ^ 24 % 2 ^ 8) 24 i
      (lt_of_lt_of_le (Nat.mod_lt s (by norm_num))
        (Nat.pow_le_pow_right (by norm_num) (by norm_num)))]
  rcases Nat.lt_or_ge i 24 with h24 | h24
  · simp only [h24, if_pos, Nat.testBit_two_pow_sub_one, Nat.testBit_mod_two_pow]
    cases Nat.testBit s i <;> simp
  · rw [if_neg (Nat.not_lt.mpr h24), if_neg (Nat.not_lt.mpr h24)]
    have hd : s / 2 ^ 24 = s >>> 24 := (Nat.shiftRight_eq_div_pow s 24).symm
    rw [Nat.testBit_mod_two_pow, hd, Nat.testBit_shiftRight,
      Nat.add_sub_cancel' h24, Nat.testBit_two_pow_sub_one]
    cases Nat.testBit s i <;> simp

/-- Clearing the group byte: AND with 0xFFFF00FF keeps the low 8 bits
and bytes 2 and 3. -/
theorem and_mask_group (s : Nat) :
    s &&& 0xFFFF00FF = s % 2 ^ 8 + s / 2 ^ 16 % 2 ^ 16 * 2 ^ 16 := by
  have h : (0xFFFF00FF : Nat) = (2 ^ 8 - 1) + (2 ^ 16 - 1) * 2 ^ 16 := by norm_num
  apply Nat.eq_of_testBit_eq
  intro i
  rw [h, Nat.testBit_and,
    testBit_split (2 ^ 8 - 1) (2 ^ 16 - 1) 16 i (by norm_num),
    testBit_split (s % 2 ^ 8) (s / 2 ^ 16 % 2 ^ 16) 16 i
      (lt_of_lt_of_le (Nat.mod_lt s (by norm_num))
        (Nat.pow_le_pow_right (by norm_num) (by norm_num)))]
  rcases Nat.lt_or_ge i 16 with h16 | h16
  · simp only [h16, if_pos, Nat.testBit_two_pow_sub_one, Nat.testBit_mod_two_pow]
    cases Nat.testBit s i <;> simp
  · rw [if_neg (Nat.not_lt.mpr h16), if_neg (Nat.not_lt.mpr h16)]
    have hd : s / 2 ^ 16 = s >>> 16 := (Nat.shiftRight_eq_div_pow s 16).symm
    rw [Nat.testBit_mod_two_pow, hd, Nat.testBit_shiftRight,
      Nat.add_sub_cancel' h16, Nat.testBit_two_pow_sub_one]
    cases Nat.testBit s i <;> simp

/-- Clearing the world byte: AND with 0xFFFFFF00 keeps bytes 1, 2
and 3. -/
theorem and_mask_world (s : Nat) :
    s &&& 0xFFFFFF00 = s / 2 ^ 8 % 2 ^ 24 * 2 ^ 8 := by
  have h : (0xFFFFFF00 : Nat) = 0 + (2 ^ 24 - 1) * 2 ^ 8 := by norm_num
  apply Nat.eq_of_testBit_eq
  intro i
  have hr : s / 2 ^ 8 % 2 ^ 24 * 2 ^ 8 = 0 + s / 2 ^ 8 % 2 ^ 24 * 2 ^ 8 := by
    rw [Nat.zero_add]
  rw [h, Nat.testBit_and,
    testBit_split 0 (2 ^ 24 - 1) 8 i (by norm_num), hr,
    testBit_split 0 (s / 2 ^ 8 % 2 ^ 24) 8 i (by norm_num)]
  rcases Nat.lt_or_ge i 8 with h8 | h8
  · simp [h8]
  · rw [if_neg (Nat.not_lt.mpr h8), if_neg (Nat.not_lt.mpr h8)]
    have hd : s / 2 ^ 8 = s >>> 8 := (Nat.shiftRight_eq_div_pow s 8).symm
    rw [Nat.testBit_mod_two_pow, hd, Nat.testBit_shiftRight,
      Nat.add_sub_cancel' h8, Nat.testBit_two_pow_sub_one]
    cases Nat.testBit s i <;> simp

/-- Byte extraction as division and remainder. -/
theorem byteAt_eq (x i : Nat) : byteAt x i = x / 2 ^ (8 * i) % 2 ^ 8 := by
  have h : (0xFF : Nat) = 2 ^ 8 - 1 := by norm_num
  rw [byteAt, h, Nat.and_pow_two_sub_one_eq_mod, Nat.shiftRight_eq_div_pow]

/-- Frame property of the possessor-tier setter, byte by byte. -/
theorem set_posessor_frame (s p : Nat) (hp : p < 2 ^ 8) :
    byteAt ((KeyPermissions.mk s).set_posessor_perms ⟨p⟩).bits 3 = p ∧
    byteAt ((KeyPermissions.mk s).set_posessor_perms ⟨p⟩).bits 2 = byteAt s 2 ∧
    byteAt ((KeyPermissions.mk s).set_posessor_perms ⟨p⟩).bits 1 = byteAt s 1 ∧
    byteAt ((KeyPermissions.mk s).set_posessor_perms ⟨p⟩).bits 0 = byteAt s 0 := by
  have harith : ((KeyPermissions.mk s).set_posessor_perms ⟨p⟩).bits
      = s % 2 ^ 24 + p * 2 ^ 24 := by
    show ((s &&& 0x00FFFFFF) + (p <<< 24)) % 2 ^ 32 = _
    rw [and_mask_posessor, Nat.shiftLeft_eq]
    apply Nat.mod_eq_of_lt
    have h1 : s % 2 ^ 24 < 2 ^ 24 := Nat.mod_lt _ (by norm_num)
    omega
  rw [harith]
  simp only [byteAt_eq]
  refine ⟨by omega, by omega, by omega, by omega⟩

/-- Frame property of the user-tier setter, byte by byte. -/
theorem set_user_frame (s p : Nat) (hp : p < 2 ^ 8) :
    byteAt ((KeyPermissions.mk s).set_user_perms ⟨p⟩).bits 2 = p ∧
    byteAt ((KeyPermissions.mk s).set_user_perms ⟨p⟩).bits 3 = byteAt s 3 ∧
    byteAt ((KeyPermissions.mk s).set_user_perms ⟨p⟩).bits 1 = byteAt s 1 ∧
    byteAt ((KeyPermissions.mk s).set_user_perms ⟨p⟩).bits 0 = byteAt s 0 := by
  have harith : ((KeyPermissions.mk s).set_user_perms ⟨p⟩).bits
      = s % 2 ^ 16 + s / 2 ^ 24 % 2 ^ 8 * 2 ^ 24 + p * 2 ^ 16 := by
    show ((s &&& 0xFF00FFFF) + (p <<< 16)) % 2 ^ 32 = _
    rw [and_mask_user, Nat.shiftLeft_eq]
    apply Nat.mod_eq_of_lt
    have h1 : s % 2 ^ 16 < 2 ^ 16 := Nat.mod_lt _ (by norm_num)
    have h2 : s / 2 ^ 24 % 2 ^ 8 < 2 ^ 8 := Nat.mod_lt _ (by norm_num)
    omega
  rw [harith]
  simp only [byteAt_eq]
  refine ⟨by omega, by omega, by omega, by omega⟩

/-- Frame property of the group-tier setter, byte by byte. -/
theorem set_group_frame (s p : Nat) (hp : p < 2 ^ 8) :
    byteAt ((KeyPermissions.mk s).set_group_perms ⟨p⟩).bits 1 = p ∧
    byteAt ((KeyPermissions.mk s).set_group_perms ⟨p⟩).bits 3 = byteAt s 3 ∧
    byteAt ((KeyPermissions.mk s).set_group_perms ⟨p⟩).bits 2 = byteAt s 2 ∧
    byteAt ((KeyPermissions.mk s).set_group_perms ⟨p⟩).bits 0 = byteAt s 0 := by
  have harith : ((KeyPermissions.mk s).set_group_perms ⟨p⟩).bits
      = s % 2 ^ 8 + s / 2 ^ 16 % 2 ^ 16 * 2 ^ 16 + p * 2 ^ 8 := by
    show ((s &&& 0xFFFF00FF) + (p <<< 8)) % 2 ^ 32 = _
    rw [and_mask_group, Nat.shiftLeft_eq]
    apply Nat.mod_eq_of_lt
    have h1 : s % 2 ^ 8 < 2 ^ 8 := Nat.mod_lt _ (by norm_num)
    have h2 : s / 2 ^ 16 % 2 ^ 16 < 2 ^ 16 := Nat.mod_lt _ (by norm_num)
    omega
  rw [harith]
  simp only [byteAt_eq]
  refine ⟨by omega, by omega, by omega, by omega⟩

/-- Frame property of the world-tier setter, byte by byte. -/
theorem set_world_frame (s p : Nat) (hp : p < 2 ^ 8) :
    byteAt ((KeyPermissions.mk s).set_world_perms ⟨p⟩).bits 0 = p ∧
    byteAt ((KeyPermissions.mk s).set_world_perms ⟨p⟩).bits 3 = byteAt s 3 ∧
    byteAt ((KeyPermissions.mk s).set_world_perms ⟨p⟩).bits 2 = byteAt s 2 ∧
    byteAt ((KeyPermissions.mk s).set_world_perms ⟨p⟩).bits 1 = byteAt s 1 := by
  have harith : ((KeyPermissions.mk s).set_world_perms ⟨p⟩).bits
      = s / 2 ^ 8 % 2 ^ 24 * 2 ^ 8 + p := by
    show ((s &&& 0xFFFFFF00) + p) % 2 ^ 32 = _
    rw [and_mask_world]
    apply Nat.mod_eq_of_lt
    have h1 : s / 2 ^ 8 % 2 ^ 24 < 2 ^ 24 := Nat.mod_lt _ (by norm_num)
    omega
  rw [harith]
  simp only [byteAt_eq]
  refine ⟨by omega, by omega, by omega, by omega⟩

/-- C3: for every starting KeyPermissions mask (all 2^32 values,
reserved bits included) and every u8 capability value, each of the four
tier setters followed by bits() changes only that tier's byte, which
then holds exactly the given capability bits, while the other three
bytes keep their starting values. -/
theorem set_tier_perms_frame (s p : Nat) (hs : s < 2 ^ 32) (hp : p < 2 ^ 8) :
    (byteAt ((KeyPermissions.mk s).set_posessor_perms ⟨p⟩).bits 3 = p ∧
     byteAt ((KeyPermissions.mk s).set_posessor_perms ⟨p⟩).bits 2 = byteAt s 2 ∧
     byteAt ((KeyPermissions.mk s).set_posessor_perms ⟨p⟩).bits 1 = byteAt s 1 ∧
     byteAt ((KeyPermissions.mk s).set_posessor_perms ⟨p⟩).bits 0 = byteAt s 0) ∧
    (byteAt ((KeyPermissions.mk s).set_user_perms ⟨p⟩).bits 2 = p ∧
     byteAt ((KeyPermissions.mk s).set_user_perms ⟨p⟩).bits 3 = byteAt s 3 ∧
     byteAt ((KeyPermissions.mk s).set_user_perms ⟨p⟩).bits 1 = byteAt s 1 ∧
     byteAt ((KeyPermissions.mk s).set_user_perms ⟨p⟩).bits 0 = byteAt s 0) ∧
    (byteAt ((KeyPermissions.mk s).set_group_perms ⟨p⟩).bits 1 = p ∧
     byteAt ((KeyPermissions.mk s).set_group_perms ⟨p⟩).bits 3 = byteAt s 3 ∧
     byteAt ((KeyPermissions.mk s).set_group_perms ⟨p⟩).bits 2 = byteAt s 2 ∧
     byteAt ((KeyPermissions.mk s).set_group_perms ⟨p⟩).bits 0 = byteAt s 0) ∧
    (byteAt ((KeyPermissions.mk s).set_world_perms ⟨p⟩).bits 0 = p ∧
     byteAt ((KeyPermissions.mk s).set_world_perms ⟨p⟩).bits 3 = byteAt s 3 ∧
     byteAt ((KeyPermissions.mk s).set_world_perms ⟨p⟩).bits 2 = byteAt s 2 ∧
     byteAt ((KeyPermissions.mk s).set_world_perms ⟨p⟩).bits 1 = byteAt s 1) :=
  ⟨set_posessor_frame s p hp, set_user_frame s p hp,
   set_group_frame s p hp, set_world_frame s p hp⟩

/-- Witness for C3 at the concrete mask 0xA1B2C3D4 and capability
set SEARCH with VIEW (0x09). -/
theorem set_tier_perms_frame_witness :
    0xA1B2C3D4 < 2 ^ 32 ∧ 0x09 < 2 ^ 8 ∧
    (byteAt ((KeyPermissions.mk 0xA1B2C3D4).set_posessor_perms ⟨0x09⟩).bits 3 = 0x09 ∧
     byteAt ((KeyPermissions.mk 0xA1B2C3D4).set_posessor_perms ⟨0x09⟩).bits 2 =
       byteAt 0xA1B2C3D4 2 ∧
     byteAt ((KeyPermissions.mk 0xA1B2C3D4).set_posessor_perms ⟨0x09⟩).bits 1 =
       byteAt 0xA1B2C3D4 1 ∧
     byteAt ((KeyPermissions.mk 0xA1B2C3D4).set_posessor_perms ⟨0x09⟩).bits 0 =
       byteAt 0xA1B2C3D4 0) ∧
    (byteAt ((KeyPermissions.mk 0xA1B2C3D4).set_user_perms ⟨0x09⟩).bits 2 = 0x09 ∧
     byteAt ((KeyPermissions.mk 0xA1B2C3D4).set_user_perms ⟨0x09⟩).bits 3 =
       byteAt 0xA1B2C3D4 3 ∧
     byteAt ((KeyPermissions.mk 0xA1B2C3D4).set_user_perms ⟨0x09⟩).bits 1 =
       byteAt 0xA1B2C3D4 1 ∧
     byteAt ((KeyPermissions.mk 0xA1B2C3D4).set_user_perms ⟨0x09⟩).bits 0 =
       byteAt 0xA1B2C3D4 0) ∧
    (byteAt ((KeyPermissions.mk 0xA1B2C3D4).set_group_perms ⟨0x09⟩).bits 1 = 0x09 ∧
     byteAt ((KeyPermissions.mk 0xA1B2C3D4).set_group_perms ⟨0x09⟩).bits 3 =
       byteAt 0xA1B2C3D4 3 ∧
     byteAt ((KeyPermissions.mk 0xA1B2C3D4).set_group_perms ⟨0x09⟩).bits 2 =
       byteAt 0xA1B2C3D4 2 ∧
     byteAt ((KeyPermissions.mk 0xA1B2C3D4).set_group_perms ⟨0x09⟩).bits 0 =
       byteAt 0xA1B2C3D4 0) ∧
    (byteAt ((KeyPermissions.mk 0xA1B2C3D4).set_world_perms ⟨0x09⟩).bits 0 = 0x09 ∧
     byteAt ((KeyPermissions.mk 0xA1B2C3D4).set_world_perms ⟨0x09⟩).bits 3 =
       byteAt 0xA1B2C3D4 3 ∧
     byteAt ((KeyPermissions.mk 0xA1B2C3D4).set_world_perms ⟨0x09⟩).bits 2 =
       byteAt 0xA1B2C3D4 2 ∧
     byteAt ((KeyPermissions.mk 0xA1B2C3D4).set_world_perms ⟨0x09⟩).bits 1 =
       byteAt 0xA1B2C3D4 1) := by
  have h := set_tier_perms_frame 0xA1B2C3D4 0x09 (by norm_num) (by norm_num)
  exact ⟨by norm_num, by norm_num, h.1, h.2.1, h.2.2.1, h.2.2.2⟩

/-! ## Helper lemmas for the metadata parser -/

/-- split never yields an empty field list. -/
theorem splitSemi_ne_nil (l : List Char) : splitSemi l ≠ [] := by
  cases l with
  | nil => simp [splitSemi]
  | cons c cs =>
    unfold splitSemi
    split
    · simp
    · split <;> simp

/-- A separator-free string is a single field. -/
theorem splitSemi_no_semi (a : List Char) (h : ';' ∉ a) : splitSemi a = [a] := by
  induction a with
  | nil => rfl
  | cons c cs ih =>
    have hc : ¬c = ';' := fun hc => h (hc ▸ List.mem_cons_self c cs)
    have hcs : ';' ∉ cs := fun hm => h (List.mem_cons_of_mem c hm)
    unfold splitSemi
    rw [if_neg hc, ih hcs]

/-- One unfolding step of split at a non-separator character: the
character is prepended to the first field of the tail's split. -/
theorem splitSemi_cons_ne (c : Char) (cs : List Char) (h : ¬c = ';')
    (f : List Char) (fs : List (List Char)) (hsplit : splitSemi cs = f :: fs) :
    splitSemi (c :: cs) = (c :: f) :: fs := by
  rw [splitSemi, if_neg h, hsplit]

/-- Splitting a string that starts with a separator-free field followed
by a separator peels off that field. -/
theorem splitSemi_append (a rest : List Char) (h : ';' ∉ a) :
    splitSemi (a ++ ';' :: rest) = a :: splitSemi rest := by
  induction a with
  | nil => simp [splitSemi]
  | cons c cs ih =>
    have hc : ¬c = ';' := fun hc => h (hc ▸ List.mem_cons_self c cs)
    have hcs : ';' ∉ cs := fun hm => h (List.mem_cons_of_mem c hm)
    rw [List.cons_append]
    exact splitSemi_cons_ne c _ hc cs (splitSemi rest) (ih hcs)

/-- The digit-accumulation fold never decreases the accumulator when
the radix is positive. -/
theorem foldl_digits_mono (digit : Char → Option Nat) (radix : Nat)
    (hrad : 1 ≤ radix) (s : List Char) (a : Nat) :
    a ≤ List.foldl (fun x c => x * radix + ((digit c).getD 0)) a s := by
  induction s generalizing a with
  | nil => simp
  | cons c rest ih =>
    refine le_trans ?_ (ih (a * radix + ((digit c).getD 0)))
    calc a = a * 1 := (Nat.mul_one a).symm
    _ ≤ a * radix := Nat.mul_le_mul_left a hrad
    _ ≤ a * radix + ((digit c).getD 0) := Nat.le_add_right _ _

/-- The from_str_radix digit loop computes the base-radix fold when all
characters are digits and the final value fits in a u32. -/
theorem parseU32Core_sound (digit : Char → Option Nat) (radix : Nat)
    (hrad : 1 ≤ radix) (s : List Char) (acc : Nat)
    (hall : ∀ c ∈ s, (digit c).isSome)
    (hlt : List.foldl (fun x c => x * radix + ((digit c).getD 0)) acc s < 2 ^ 32) :
    parseU32Core digit radix s acc
      = some (List.foldl (fun x c => x * radix + ((digit c).getD 0)) acc s) := by
  induction s generalizing acc with
  | nil => simp [parseU32Core]
  | cons c rest ih =>
    have hc : (digit c).isSome := hall c (List.mem_cons_self c rest)
    obtain ⟨d, hd⟩ := Option.isSome_iff_exists.mp hc
    have hgd : (digit c).getD 0 = d := by rw [hd]; rfl
    rw [List.foldl_cons, hgd] at hlt ⊢
    have hstep : acc * radix + d
        ≤ List.foldl (fun x c => x * radix + ((digit c).getD 0)) (acc * radix + d) rest :=
      foldl_digits_mono digit radix hrad rest (acc * radix + d)
    simp only [parseU32Core, hd]
    rw [if_pos (lt_of_le_of_lt hstep hlt)]
    exact ih (acc * radix + d) (fun x hx => hall x (List.mem_cons_of_mem c hx)) hlt

/-- A nonempty all-digit decimal string whose value fits in a u32
parses to its numeric value. -/
theorem parseU32Dec_sound (s : List Char) (hne : s ≠ [])
    (hall : ∀ c ∈ s, (decDigitVal c).isSome) (hval : decValue s < 2 ^ 32) :
    parseU32Dec s = some (decValue s) := by
  cases s with
  | nil => exact absurd rfl hne
  | cons c cs =>
    have hc : (decDigitVal c).isSome := hall c (List.mem_cons_self c cs)
    have hcp : ¬c = '+' := by
      intro hp
      rw [hp] at hc
      simp [decDigitVal] at hc
    simp only [parseU32Dec, stripPlus]
    rw [if_neg hcp]
    rw [if_neg (by simp : ¬(c :: cs).isEmpty = true)]
    exact parseU32Core_sound decDigitVal 10 (by norm_num) (c :: cs) 0 hall hval

/-- A nonempty all-digit hexadecimal string whose value fits in a u32
parses to its numeric value. -/
theorem parseU32Hex_sound (s : List Char) (hne : s ≠ [])
    (hall : ∀ c ∈ s, (hexDigitVal c).isSome) (hval : hexValue s < 2 ^ 32) :
    parseU32Hex s = some (hexValue s) := by
  cases s with
  | nil => exact absurd rfl hne
  | cons c cs =>
    have hc : (hexDigitVal c).isSome := hall c (List.mem_cons_self c cs)
    have hcp : ¬c = '+' := by
      intro hp
      rw [hp] at hc
      simp [hexDigitVal] at hc
    simp only [parseU32Hex, stripPlus]
    rw [if_neg hcp]
    rw [if_neg (by simp : ¬(c :: cs).isEmpty = true)]
    exact parseU32Core_sound hexDigitVal 16 (by norm_num) (c :: cs) 0 hall hval

/-- A decimal digit is not a semicolon. -/
theorem decDigit_ne_semi (s : List Char) (hall : ∀ c ∈ s, (decDigitVal c).isSome) :
    ';' ∉ s := by
  intro hm
  have := hall _ hm
  simp [decDigitVal] at this

/-- A hexadecimal digit is not a semicolon. -/
theorem hexDigit_ne_semi (s : List Char) (hall : ∀ c ∈ s, (hexDigitVal c).isSome) :
    ';' ∉ s := by
  intro hm
  have := hall _ hm
  simp [hexDigitVal] at this

/-- The tag table is separator-free and try_from inverts it. -/
theorem tag_no_semi_try_from (kt : KeyType) :
    ';' ∉ kt.tag ∧ (KeyType.try_from kt.tag).toOption = some kt := by
  cases kt <;> exact ⟨by decide, rfl⟩

/-! ## Claim theorems for the metadata protocol -/

/-- C5: every well-formed descriptor type;uid;gid;perm;description with
one of the four fixed type tags, nonempty decimal uid and gid and
hexadecimal perm fields whose values fit in a u32, and a
semicolon-free description, parses successfully into exactly the
corresponding Metadata fields. -/
theorem from_str_wellformed_roundtrip
    (kt : KeyType) (uid gid perm desc : List Char)
    (huidne : uid ≠ []) (huid : ∀ c ∈ uid, (decDigitVal c).isSome = true)
    (hgidne : gid ≠ []) (hgid : ∀ c ∈ gid, (decDigitVal c).isSome = true)
    (hpermne : perm ≠ []) (hperm : ∀ c ∈ perm, (hexDigitVal c).isSome = true)
    (huval : decValue uid < 2 ^ 32) (hgval : decValue gid < 2 ^ 32)
    (hpval : hexValue perm < 2 ^ 32) (hdesc : ';' ∉ desc) :
    Metadata.from_str
        (kt.tag ++ (';' :: (uid ++ (';' :: (gid ++ (';' :: (perm ++ (';' :: desc))))))))
      = .ok ⟨kt, decValue uid, decValue gid,
             KeyPermissions.from_u32 (hexValue perm), desc⟩ := by
  obtain ⟨htag, htt⟩ := tag_no_semi_try_from kt
  have hsplit : splitSemi
      (kt.tag ++ (';' :: (uid ++ (';' :: (gid ++ (';' :: (perm ++ (';' :: desc))))))))
      = [kt.tag, uid, gid, perm, desc] := by
    rw [splitSemi_append _ _ htag,
        splitSemi_append _ _ (decDigit_ne_semi uid huid),
        splitSemi_append _ _ (decDigit_ne_semi gid hgid),
        splitSemi_append _ _ (hexDigit_ne_semi perm hperm),
        splitSemi_no_semi desc hdesc]
  unfold Metadata.from_str
  rw [hsplit]
  simp only [List.get?_cons_zero, List.get?_cons_succ, Option.some_bind, htt,
    parseU32Dec_sound uid huidne huid huval,
    parseU32Dec_sound gid hgidne hgid hgval,
    parseU32Hex_sound perm hpermne hperm hpval]

/-- Witness for C5 at the spec's example descriptor. -/
theorem from_str_wellformed_roundtrip_witness :
    (';' ∉ "my-key".toList) ∧
    decValue "1000".toList = 1000 ∧ hexValue "3f010000".toList = 0x3f010000 ∧
    Metadata.from_str "user;1000;1000;3f010000;my-key".toList
      = .ok ⟨.User, decValue "1000".toList, decValue "1000".toList,
             KeyPermissions.from_u32 (hexValue "3f010000".toList), "my-key".toList⟩ := by
  refine ⟨by decide, by decide, by decide, ?_⟩
  have h := from_str_wellformed_roundtrip .User "1000".toList "1000".toList
    "3f010000".toList "my-key".toList (by decide) (by decide) (by decide)
    (by decide) (by decide) (by decide) (by decide) (by decide) (by decide)
    (by decide)
  have hin : "user;1000;1000;3f010000;my-key".toList
      = KeyType.tag .User ++ (';' :: ("1000".toList ++ (';' :: ("1000".toList
        ++ (';' :: ("3f010000".toList ++ (';' :: "my-key".toList))))))) := by
    decide
  rw [hin]
  exact h

/-- C4 counterexample: the input "user;0;0;0;a;b" has six
semicolon-separated fields, yet parsing succeeds, and the resulting
description is "a", not the remainder "a;b" after the fourth
semicolon — the sixth field is silently dropped. -/
theorem from_str_extra_fields_cx :
    Metadata.from_str "user;0;0;0;a;b".toList
      = .ok ⟨.User, 0, 0, KeyPermissions.from_u32 0, "a".toList⟩ ∧
    (splitSemi "user;0;0;0;a;b".toList).length ≠ 5 ∧
    "a".toList ≠ "a;b".toList := by
  decide

/-- C4 (amended): the parser splits on every semicolon and takes the
fifth field as the description; appending ";extra" to a well-formed
five-field descriptor still parses successfully and yields the same
Metadata, so components after the fifth are silently ignored and a
description containing a semicolon is truncated at it. -/
theorem from_str_description_is_fifth_field
    (kt : KeyType) (uid gid perm desc extra : List Char)
    (huidne : uid ≠ []) (huid : ∀ c ∈ uid, (decDigitVal c).isSome = true)
    (hgidne : gid ≠ []) (hgid : ∀ c ∈ gid, (decDigitVal c).isSome = true)
    (hpermne : perm ≠ []) (hperm : ∀ c ∈ perm, (hexDigitVal c).isSome = true)
    (huval : decValue uid < 2 ^ 32) (hgval : decValue gid < 2 ^ 32)
    (hpval : hexValue perm < 2 ^ 32) (hdesc : ';' ∉ desc) :
    Metadata.from_str
        (kt.tag ++ (';' :: (uid ++ (';' :: (gid ++ (';' :: (perm ++ (';' ::
          (desc ++ (';' :: extra))))))))))
      = .ok ⟨kt, decValue uid, decValue gid,
             KeyPermissions.from_u32 (hexValue perm), desc⟩ := by
  obtain ⟨htag, htt⟩ := tag_no_semi_try_from kt
  have hsplit : splitSemi
      (kt.tag ++ (';' :: (uid ++ (';' :: (gid ++ (';' :: (perm ++ (';' ::
        (desc ++ (';' :: extra))))))))))
      = kt.tag :: uid :: gid :: perm :: desc :: splitSemi extra := by
    rw [splitSemi_append _ _ htag,
        splitSemi_append _ _ (decDigit_ne_semi uid huid),
        splitSemi_append _ _ (decDigit_ne_semi gid hgid),
        splitSemi_append _ _ (hexDigit_ne_semi perm hperm),
        splitSemi_append _ _ hdesc]
  unfold Metadata.from_str
  rw [hsplit]
  simp only [List.get?_cons_zero, List.get?_cons_succ, Option.some_bind, htt,
    parseU32Dec_sound uid huidne huid huval,
    parseU32Dec_sound gid hgidne hgid hgval,
    parseU32Hex_sound perm hpermne hperm hpval]

/-- Witness for the amended C4 at the counterexample input. -/
theorem from_str_description_is_fifth_field_witness :
    (';' ∉ "a".toList) ∧
    Metadata.from_str "user;0;0;0;a;b".toList
      = .ok ⟨.User, decValue "0".toList, decValue "0".toList,
             KeyPermissions.from_u32 (hexValue "0".toList), "a".toList⟩ := by
  refine ⟨by decide, ?_⟩
  have h := from_str_description_is_fifth_field .User "0".toList "0".toList
    "0".toList "a".toList "b".toList (by decide) (by decide) (by decide)
    (by decide) (by decide) (by decide) (by decide) (by decide) (by decide)
    (by decide)
  have hin : "user;0;0;0;a;b".toList
      = KeyType.tag .User ++ (';' :: ("0".toList ++ (';' :: ("0".toList
        ++ (';' :: ("0".toList ++ (';' :: ("a".toList
        ++ (';' :: "b".toList))))))))) := by
    decide
  rw [hin]
  exact h

/-- C6: whenever Metadata::from_str fails, the error is exactly
KeyError::InvalidDescription — no other error kind is ever returned
(the model is a total function, so no panic is possible, and an error
result carries no Metadata). -/
theorem from_str_errors_invalid_description (s : List Char) (e : KeyError)
    (h : Metadata.from_str s = .error e) : e = .InvalidDescription := by
  simp only [Metadata.from_str] at h
  split at h
  · injection h with h2
    exact h2.symm
  · split at h
    · injection h with h2
      exact h2.symm
    · split at h
      · injection h with h2
        exact h2.symm
      · split at h
        · injection h with h2
          exact h2.symm
        · split at h
          · injection h with h2
            exact h2.symm
          · exact absurd h (by simp)

/-- Witness for C6 at an input with a missing uid field. -/
theorem from_str_errors_invalid_description_witness :
    Metadata.from_str "user".toList = .error .InvalidDescription ∧
    KeyError.InvalidDescription = .InvalidDescription :=
  ⟨by decide,
   from_str_errors_invalid_description "user".toList .InvalidDescription (by decide)⟩

/-! ## Claim theorems for keyring resolution and error decoding -/

/-- C7 counterexample: when the KEYCTL_GET_KEYRING_ID syscall fails
with ENOKEY (126), the missing-keyring OS error, from_special_id with
create = false returns KeyDoesNotExist, not KeyringDoesNotExist. -/
theorem from_special_id_enokey_cx :
    KeyRing.from_special_id .Session false (.error 126) = .error .KeyDoesNotExist ∧
    KeyRing.from_special_id .Session false (.error 126) ≠ .error .KeyringDoesNotExist := by
  decide

/-- C7 (amended): resolving a special keyring identifier when the
kernel reports ENOKEY fails with KeyDoesNotExist, because from_errno
maps ENOKEY to KeyDoesNotExist; from_errno never produces
KeyringDoesNotExist for any errno. -/
theorem from_special_id_enokey_key_does_not_exist :
    (∀ id : KeyRingIdentifier, ∀ create : Bool,
      KeyRing.from_special_id id create (.error 126) = .error .KeyDoesNotExist) ∧
    (∀ e : Int, KeyError.from_errno e ≠ .KeyringDoesNotExist) := by
  constructor
  · intro id create
    rfl
  · intro e
    unfold KeyError.from_errno
    repeat' split
    all_goals simp

/-- C9: decode_error maps exactly the four kinds KeyDoesNotExist,
AccessDenied, KeyRevoked and KeyExpired to the user-facing NoEntry
category, and no other kind. -/
theorem decode_error_no_entry_iff (e : KeyError) :
    decode_error e = .NoEntry ↔
      e = .KeyDoesNotExist ∨ e = .AccessDenied ∨ e = .KeyRevoked ∨ e = .KeyExpired := by
  cases e <;> simp [decode_error]

/-! ## Claim theorems for the credential store adapter -/

/-- C1 counterexample: with the search succeeding and the read destined
to succeed, a failure of the session re-link step makes get_secret
return the decoded error instead of the payload — the re-link failure
is fatal, not non-fatal. -/
theorem get_secret_relink_failure_not_nonfatal_cx :
    ((⟨⟨1⟩, some ⟨2⟩, "svc"⟩ : KeyutilsCredential).get_secret
        ⟨.ok ⟨7⟩, .error .QuotaExceeded, .ok (), .ok [42]⟩).fst
      = .error (.PlatformFailure .QuotaExceeded) ∧
    ((⟨⟨1⟩, some ⟨2⟩, "svc"⟩ : KeyutilsCredential).get_secret
        ⟨.ok ⟨7⟩, .error .QuotaExceeded, .ok (), .ok [42]⟩).fst ≠ .ok [42] := by
  decide

/-- C1 (amended): in get_secret a failure of either re-link step is
fatal: when the search succeeded, a session re-link error is decoded
and returned, and likewise a persistent re-link error when the session
re-link succeeded and a persistent keyring is configured; the payload
is never returned in these cases. -/
theorem get_secret_relink_failure_fatal (c : KeyutilsCredential) (env : GetEnv)
    (key : KeySerialId) (hs : env.searchRes = .ok key) :
    (∀ e, env.linkSessionRes = .error e →
      (c.get_secret env).fst = .error (decode_error e)) ∧
    (∀ ring e, c.persistent = some ring → env.linkSessionRes = .ok () →
      env.linkPersistRes = .error e →
      (c.get_secret env).fst = .error (decode_error e)) := by
  constructor
  · intro e he
    simp only [KeyutilsCredential.get_secret, hs, he]
  · intro ring e hper hok herr
    simp only [KeyutilsCredential.get_secret, hs, hok, hper, herr]

/-- Witness for the amended C1 with a failing session re-link. -/
theorem get_secret_relink_failure_fatal_witness :
    (⟨.ok ⟨7⟩, .error .QuotaExceeded, .ok (), .ok [42]⟩ : GetEnv).searchRes
      = .ok ⟨7⟩ ∧
    ((⟨⟨1⟩, some ⟨2⟩, "svc"⟩ : KeyutilsCredential).get_secret
        ⟨.ok ⟨7⟩, .error .QuotaExceeded, .ok (), .ok [42]⟩).fst
      = .error (decode_error .QuotaExceeded) :=
  ⟨rfl,
   (get_secret_relink_failure_fatal ⟨⟨1⟩, some ⟨2⟩, "svc"⟩
      ⟨.ok ⟨7⟩, .error .QuotaExceeded, .ok (), .ok [42]⟩ ⟨7⟩ rfl).1
     .QuotaExceeded rfl⟩

/-- C2 counterexample: the search succeeds and a persistent keyring is
configured, yet when the session re-link fails the persistent re-link
is never issued — the re-link into the persistent keyring is not
unconditional. -/
theorem get_secret_persistent_relink_skipped_cx :
    ((⟨⟨1⟩, some ⟨2⟩, "svc2"⟩ : KeyutilsCredential).get_secret
        ⟨.ok ⟨8⟩, .error .QuotaExceeded, .ok (), .ok [1]⟩).snd
      = [.search ⟨1⟩ "svc2", .linkKey ⟨1⟩ ⟨8⟩] ∧
    KernelOp.linkKey ⟨2⟩ ⟨8⟩ ∉
      ((⟨⟨1⟩, some ⟨2⟩, "svc2"⟩ : KeyutilsCredential).get_secret
          ⟨.ok ⟨8⟩, .error .QuotaExceeded, .ok (), .ok [1]⟩).snd := by
  decide

/-- C2 (amended): whenever the search succeeds, the session re-link is
always issued; the persistent re-link is issued whenever a persistent
keyring is configured and the session re-link succeeded; and whenever
the payload is returned, the trace is exactly search, session re-link,
persistent re-link (if configured), then the read — both re-links
precede the read. -/
theorem get_secret_relinks_before_read (c : KeyutilsCredential) (env : GetEnv)
    (key : KeySerialId) (hs : env.searchRes = .ok key) :
    KernelOp.linkKey c.session key ∈ (c.get_secret env).snd ∧
    (∀ ring, c.persistent = some ring → env.linkSessionRes = .ok () →
      KernelOp.linkKey ring key ∈ (c.get_secret env).snd) ∧
    (∀ payload, (c.get_secret env).fst = .ok payload →
      (c.get_secret env).snd
        = [KernelOp.search c.session c.description, KernelOp.linkKey c.session key]
          ++ (match c.persistent with
              | some ring => [KernelOp.linkKey ring key]
              | none => []) ++ [KernelOp.readKey key]) := by
  rcases c with ⟨sess, per, desc⟩
  rcases env with ⟨sr, ls, lp, rr⟩
  simp only at hs
  subst hs
  cases per <;> cases ls <;> cases lp <;> cases rr <;>
    simp_all [KeyutilsCredential.get_secret]

/-- Witness for the amended C2 on an all-success run. -/
theorem get_secret_relinks_before_read_witness :
    (⟨.ok ⟨9⟩, .ok (), .ok (), .ok [5]⟩ : GetEnv).searchRes = .ok ⟨9⟩ ∧
    KernelOp.linkKey ⟨3⟩ ⟨9⟩ ∈
      ((⟨⟨3⟩, some ⟨4⟩, "w"⟩ : KeyutilsCredential).get_secret
          ⟨.ok ⟨9⟩, .ok (), .ok (), .ok [5]⟩).snd ∧
    ((⟨⟨3⟩, some ⟨4⟩, "w"⟩ : KeyutilsCredential).get_secret
        ⟨.ok ⟨9⟩, .ok (), .ok (), .ok [5]⟩).snd
      = [KernelOp.search ⟨3⟩ "w", KernelOp.linkKey ⟨3⟩ ⟨9⟩]
        ++ (match (some ⟨4⟩ : Option KeySerialId) with
            | some ring => [KernelOp.linkKey ring ⟨9⟩]
            | none => []) ++ [KernelOp.readKey ⟨9⟩] := by
  have h := get_secret_relinks_before_read ⟨⟨3⟩, some ⟨4⟩, "w"⟩
    ⟨.ok ⟨9⟩, .ok (), .ok (), .ok [5]⟩ ⟨9⟩ rfl
  exact ⟨rfl, h.1, h.2.2 [5] rfl⟩

/-- C8: for every credential and every kernel environment, set_secret
with an empty secret fails with the invalid-input error and issues no
kernel call at all — the trace is empty. -/
theorem set_secret_empty_rejected_no_syscall (c : KeyutilsCredential) (env : SetEnv) :
    c.set_secret [] env = (.error (.Invalid "secret" "cannot be empty"), []) := rfl

/-- C10: set_secret is not atomic across the two keyrings: for a
nonempty secret, when the add into the session keyring succeeds but the
link into the configured persistent keyring fails, set_secret returns
the decoded link error while the trace shows the add was already
issued, with no unlink or other rollback call after it. -/
theorem set_secret_not_atomic (c : KeyutilsCredential) (secret : List Nat)
    (env : SetEnv) (ring key : KeySerialId) (e : KeyError)
    (hsec : secret ≠ []) (hper : c.persistent = some ring)
    (hadd : env.addRes = .ok key) (hlink : env.linkRes = .error e) :
    (c.set_secret secret env).fst = .error (decode_error e) ∧
    (c.set_secret secret env).snd
      = [.addKey c.session c.description secret, .linkKey ring key] := by
  cases secret with
  | nil => exact absurd rfl hsec
  | cons b bs =>
    simp only [KeyutilsCredential.set_secret, List.isEmpty_cons, hadd, hper, hlink]
    exact ⟨rfl, rfl⟩

/-- Witness for C10 with a failing persistent link after a successful
add. -/
theorem set_secret_not_atomic_witness :
    (([3, 1, 4] : List Nat) ≠ []) ∧
    ((⟨⟨5⟩, some ⟨6⟩, "np"⟩ : KeyutilsCredential).set_secret [3, 1, 4]
        ⟨.ok ⟨11⟩, .error .OutOfMemory⟩).fst = .error (decode_error .OutOfMemory) ∧
    ((⟨⟨5⟩, some ⟨6⟩, "np"⟩ : KeyutilsCredential).set_secret [3, 1, 4]
        ⟨.ok ⟨11⟩, .error .OutOfMemory⟩).snd
      = [.addKey ⟨5⟩ "np" [3, 1, 4], .linkKey ⟨6⟩ ⟨11⟩] := by
  have h := set_secret_not_atomic ⟨⟨5⟩, some ⟨6⟩, "np"⟩ [3, 1, 4]
    ⟨.ok ⟨11⟩, .error .OutOfMemory⟩ ⟨6⟩ ⟨11⟩ .OutOfMemory (by decide) rfl rfl rfl
  exact ⟨by decide, h.1, h.2⟩

end LinuxKeyutils
